import Mathlib

/-!
Shallow embedding of `utils/license.py` from modular/mojo-vscode: a pre-commit
license-header checker.  File contents are modelled as `List Char`; paths are
modelled after Python `pathlib.PurePosixPath` (component-wise parsing, so path
equality is path-semantic); the filesystem is a partial map from paths to
contents, with `none` standing for an I/O error on open/read.
-/

namespace License

/-- Characters stripped by Python `str.strip()` (the ASCII whitespace set;
the inputs in this development contain no other whitespace). -/
def isPySpace (c : Char) : Bool :=
  c = ' ' || c = '\t' || c = '\n' || c = '\r' || c = '\x0b' || c = '\x0c'

/-- Python `str.lstrip()`. -/
def pyLstrip (l : List Char) : List Char := l.dropWhile isPySpace

/-- Python `str.rstrip()`. -/
def pyRstrip (l : List Char) : List Char := l.rdropWhile isPySpace

/-- Python `str.strip()`: remove leading and trailing whitespace. -/
def pyStrip (l : List Char) : List Char := pyRstrip (pyLstrip l)

/-- Raw triple-quoted literal assigned to `JS_LICENSE_TEXT` before `.strip()`. -/
def JS_LICENSE_TEXT_raw : String := "\n//===----------------------------------------------------------------------===//\n// Copyright (c) 2025, Modular Inc. All rights reserved.\n//\n// Licensed under the Apache License v2.0 with LLVM Exceptions:\n// https://llvm.org/LICENSE.txt\n//\n// Unless required by applicable law or agreed to in writing, software\n// distributed under the License is distributed on an \"AS IS\" BASIS,\n// WITHOUT WARRANTIES OR CONDITIONS OF ANY KIND, either express or implied.\n// See the License for the specific language governing permissions and\n// limitations under the License.\n//===----------------------------------------------------------------------===//\n"

/-- Raw triple-quoted literal assigned to `PY_YAML_LICENSE_TEXT` before `.strip()`. -/
def PY_YAML_LICENSE_TEXT_raw : String := "\n# ===----------------------------------------------------------------------=== #\n# Copyright (c) 2025, Modular Inc. All rights reserved.\n#\n# Licensed under the Apache License v2.0 with LLVM Exceptions:\n# https://llvm.org/LICENSE.txt\n#\n# Unless required by applicable law or agreed to in writing, software\n# distributed under the License is distributed on an \"AS IS\" BASIS,\n# WITHOUT WARRANTIES OR CONDITIONS OF ANY KIND, either express or implied.\n# See the License for the specific language governing permissions and\n# limitations under the License.\n# ===----------------------------------------------------------------------=== #\n"

/-- `JS_LICENSE_TEXT = \"\"\"...\"\"\".strip()` -/
def JS_LICENSE_TEXT : List Char := pyStrip JS_LICENSE_TEXT_raw.data

/-- `PY_YAML_LICENSE_TEXT = \"\"\"...\"\"\".strip()` -/
def PY_YAML_LICENSE_TEXT : List Char := pyStrip PY_YAML_LICENSE_TEXT_raw.data

/-- Python `\"s\".split(\"/\")` specialised to character lists. -/
def splitSlash : List Char → List (List Char)
  | [] => [[]]
  | c :: rest =>
    if c = '/' then [] :: splitSlash rest
    else
      match splitSlash rest with
      | [] => [[c]]
      | p :: ps => (c :: p) :: ps

/-- A `pathlib` path value: parsed components, so equality is path-semantic
rather than raw-string. -/
structure MPath where
  absolute : Bool
  parts : List (List Char)
deriving DecidableEq, Repr

/-- `pathlib.Path(s)`: drop empty and \".\" components; record whether the
spelling was absolute. -/
def parsePath (s : String) : MPath :=
  { absolute := s.data.head? = some '/',
    parts := (splitSlash s.data).filter (fun p => ¬(p = [] ∨ p = ['.'])) }

/-- `Path.name`: the final component, or empty. -/
def pname (p : MPath) : List Char := (p.parts.getLast?).getD []

/-- Index of the last '.' in a name, if any. -/
def lastDotIdx : List Char → Option Nat
  | [] => none
  | c :: rest =>
    match lastDotIdx rest with
    | some i => some (i + 1)
    | none => if c = '.' then some 0 else none

/-- `pathlib` suffix of a bare name: `name[i:]` for the last dot index `i`
when `0 < i < len(name) - 1`, else empty. -/
def pySuffix (n : List Char) : List Char :=
  match lastDotIdx n with
  | none => []
  | some i => if 0 < i ∧ i + 1 < n.length then n.drop i else []

/-- `Path.suffix`. -/
def pathSuffix (p : MPath) : List Char := pySuffix (pname p)

/-- The `EXCLUDES` list of `Path` values. -/
def EXCLUDES : List MPath :=
  [".pre-commit-config.yaml",
   "package.json",
   "package-lock.json",
   "language-configuration.json",
   "extension/external/psList.ts",
   "extension/server/RpcServer.ts",
   "extension/logging.ts",
   "esbuild.mjs",
   "eslint.config.mjs",
   ".vscode-test.mjs"].map parsePath

/-- Suffix list of the C-style family in `check_file`. -/
def jsSuffixes : List (List Char) := [".js".data, ".ts".data, ".mjs".data]

/-- Suffix list of the hash-style family in `check_file`. -/
def pySuffixes : List (List Char) := [".py".data, ".mojo".data, ".yaml".data]

/-- Body of `check_file` once the read has succeeded: `contents` is the raw
file text, stripped before every comparison, exactly as in the source. -/
def check_contents (path : MPath) (raw : List Char) : Bool :=
  if path ∈ EXCLUDES then true
  else if pathSuffix path ∈ jsSuffixes ∧ JS_LICENSE_TEXT.isPrefixOf (pyStrip raw) = false then
    false
  else if pathSuffix path ∈ pySuffixes ∧ PY_YAML_LICENSE_TEXT.isPrefixOf (pyStrip raw) = false then
    false
  else true

/-- `check_file(path)`: `open` first (so an unreadable file is `none`, an
uncaught `OSError`, even for excluded paths), then the checks. -/
def check_file (fs : MPath → Option (List Char)) (path : MPath) : Option Bool :=
  (fs path).map (check_contents path)

/-- The driver filter: `Path(arg).name.endswith((\".js\", \".ts\", \".mjs\"))`. -/
def isFiltered (arg : String) : Bool :=
  ".js".data.isSuffixOf (pname (parsePath arg)) ||
  ".ts".data.isSuffixOf (pname (parsePath arg)) ||
  ".mjs".data.isSuffixOf (pname (parsePath arg))

/-- The `failing` list built by the loop in `main`, in argument order;
`none` when some read raises (the run aborts with no report). -/
def collectFailing (fs : MPath → Option (List Char)) : List String → Option (List String)
  | [] => some []
  | arg :: rest =>
    if isFiltered arg = false then collectFailing fs rest
    else
      match check_file fs (parsePath arg) with
      | none => none
      | some true => collectFailing fs rest
      | some false => (collectFailing fs rest).map (fun l => arg :: l)

/-- `main()`: returns the printed stdout lines and the process exit status,
or `none` for an uncaught I/O error. -/
def main (fs : MPath → Option (List Char)) (argv : List String) :
    Option (List String × Nat) :=
  (collectFailing fs argv).map (fun failing =>
    if failing.length > 0 then ("Missing license headers" :: failing, 1)
    else ([], 0))

end License

namespace License

/-! ## Helper lemmas -/

lemma mem_excludes_pass (p : MPath) (c : List Char) (h : p ∈ EXCLUDES) :
    check_contents p c = true := by
  unfold check_contents
  rw [if_pos h]

lemma js_not_py (s : List Char) (h : s ∈ jsSuffixes) : s ∉ pySuffixes := by
  fin_cases h <;> decide

lemma py_not_js (s : List Char) (h : s ∈ pySuffixes) : s ∉ jsSuffixes := by
  fin_cases h <;> decide

lemma no_family_pass (p : MPath) (c : List Char)
    (h1 : pathSuffix p ∉ jsSuffixes) (h2 : pathSuffix p ∉ pySuffixes) :
    check_contents p c = true := by
  unfold check_contents
  by_cases he : p ∈ EXCLUDES
  · rw [if_pos he]
  · rw [if_neg he, if_neg (fun hc => h1 hc.1), if_neg (fun hc => h2 hc.1)]

lemma rdropWhile_append (p : Char → Bool) (s t : List Char)
    (hs : List.rdropWhile p s = s) :
    List.rdropWhile p (s ++ t) = s ++ List.rdropWhile p t := by
  induction t using List.reverseRecOn with
  | nil => simpa using hs
  | append_singleton t' x IH =>
    by_cases hx : p x = true
    · rw [← List.append_assoc, List.rdropWhile_concat_pos p _ x hx,
        List.rdropWhile_concat_pos p t' x hx, IH]
    · rw [← List.append_assoc, List.rdropWhile_concat_neg p _ x hx,
        List.rdropWhile_concat_neg p t' x hx, List.append_assoc]

lemma strip_header_append (hdr t : List Char)
    (h1 : pyLstrip hdr = hdr) (h2 : pyRstrip hdr = hdr) (h3 : hdr ≠ []) :
    pyStrip (hdr ++ t) = hdr ++ pyRstrip t := by
  obtain ⟨c, rest, rfl⟩ : ∃ c rest, hdr = c :: rest := by
    cases hdr with
    | nil => exact absurd rfl h3
    | cons c rest => exact ⟨c, rest, rfl⟩
  have hc : ¬isPySpace c = true := by
    have := List.dropWhile_eq_self_iff.mp h1 (by simp)
    simpa using this
  have hl : pyLstrip ((c :: rest) ++ t) = (c :: rest) ++ t := by
    unfold pyLstrip
    rw [List.cons_append, List.dropWhile_cons_of_neg hc]
  unfold pyStrip
  rw [hl]
  exact rdropWhile_append isPySpace (c :: rest) t h2

lemma pyStrip_infix (l : List Char) : pyStrip l <:+: l := by
  have h1 : pyStrip l <+: pyLstrip l := List.rdropWhile_prefix isPySpace (pyLstrip l)
  have h2 : pyLstrip l <:+ l := List.dropWhile_suffix isPySpace
  exact h1.isInfix.trans h2.isInfix

lemma js_fail_of_ne (p : MPath) (l : List Char) (hp : p ∉ EXCLUDES)
    (hs : pathSuffix p ∈ jsSuffixes)
    (hlen : l.length = JS_LICENSE_TEXT.length) (hne : l ≠ JS_LICENSE_TEXT) :
    check_contents p l = false := by
  have hfalse : JS_LICENSE_TEXT.isPrefixOf (pyStrip l) = false := by
    cases hb : JS_LICENSE_TEXT.isPrefixOf (pyStrip l) with
    | false => rfl
    | true =>
      exfalso
      have hpre : JS_LICENSE_TEXT <+: pyStrip l := List.isPrefixOf_iff_prefix.mp hb
      have hinf : pyStrip l <:+: l := pyStrip_infix l
      have hle1 : JS_LICENSE_TEXT.length ≤ (pyStrip l).length := hpre.length_le
      have hle2 : (pyStrip l).length ≤ l.length := hinf.length_le
      have heq1 : pyStrip l = l := hinf.eq_of_length (by omega)
      have heq2 : JS_LICENSE_TEXT = pyStrip l := hpre.eq_of_length (by omega)
      exact hne (heq2 ▸ heq1).symm
  unfold check_contents
  rw [if_neg hp, if_pos ⟨hs, hfalse⟩]

end License

namespace License

lemma collectFailing_eq (fs : MPath → Option (List Char)) :
    ∀ argv : List String,
      (∀ a ∈ argv, isFiltered a = true → (fs (parsePath a)).isSome = true) →
      collectFailing fs argv =
        some (argv.filter fun a =>
          isFiltered a && decide (check_file fs (parsePath a) = some false))
  | [], _ => rfl
  | arg :: rest, h => by
    have IH := collectFailing_eq fs rest (fun a ha => h a (List.mem_cons_of_mem _ ha))
    by_cases hf : isFiltered arg = false
    · simp only [collectFailing, if_pos hf, IH, List.filter_cons, hf, Bool.false_and,
        Bool.false_eq_true, if_neg]
      simp
    · have hf2 : isFiltered arg = true := by
        revert hf
        cases isFiltered arg <;> simp
      rcases Option.isSome_iff_exists.mp (h arg (List.mem_cons_self _ _) hf2) with ⟨raw, hraw⟩
      have hb : check_file fs (parsePath arg) = some (check_contents (parsePath arg) raw) := by
        unfold check_file
        rw [hraw]
        rfl
      cases hcv : check_contents (parsePath arg) raw with
      | true =>
        rw [hcv] at hb
        simp only [collectFailing, if_neg hf, hb, IH, List.filter_cons, hf2, hb]
        simp
      | false =>
        rw [hcv] at hb
        simp only [collectFailing, if_neg hf, hb, IH, List.filter_cons, hf2]
        simp

lemma collectFailing_all_skipped (fs : MPath → Option (List Char)) :
    ∀ argv : List String, (∀ a ∈ argv, isFiltered a = false) →
      collectFailing fs argv = some []
  | [], _ => rfl
  | arg :: rest, h => by
    have IH := collectFailing_all_skipped fs rest (fun a ha => h a (List.mem_cons_of_mem _ ha))
    simp only [collectFailing, if_pos (h arg (List.mem_cons_self _ _)), IH]

lemma collectFailing_abort (fs : MPath → Option (List Char)) (arg : String)
    (h2 : isFiltered arg = true) (h3 : fs (parsePath arg) = none) :
    ∀ argv : List String, arg ∈ argv → collectFailing fs argv = none := by
  intro argv
  induction argv with
  | nil => intro hmem; exact absurd hmem (List.not_mem_nil arg)
  | cons a rest IH =>
    intro hmem
    have hcf : check_file fs (parsePath arg) = none := by
      unfold check_file
      rw [h3]
      rfl
    rcases List.mem_cons.mp hmem with heq | hmem2
    · subst heq
      simp only [collectFailing, hcf]
      rw [if_neg (by simp [h2])]
    · have IH2 := IH hmem2
      by_cases hf : isFiltered a = false
      · simp only [collectFailing, if_pos hf, IH2]
      · simp only [collectFailing, if_neg hf, IH2]
        cases hca : check_file fs (parsePath a) with
        | none => rfl
        | some b => cases b <;> simp

end License

namespace License

/-! ## Further helper lemmas -/

lemma eq_get_of_set_eq (l : List Char) (i : Nat) (c : Char) (h : i < l.length)
    (he : l.set i c = l) : c = l.get ⟨i, h⟩ := by
  have h2 : (l.set i c)[i]? = some c := by
    rw [List.getElem?_set]
    simp [h]
  rw [he] at h2
  have h3 : l[i]? = some (l.get ⟨i, h⟩) := by
    simp [List.getElem?_eq_getElem h, List.get_eq_getElem]
  rw [h2] at h3
  exact Option.some_injective _ h3

/-! ## Claim theorems -/

set_option maxRecDepth 100000 in
/-- C1: for every hash-style file (suffix `.py`, `.mojo` or `.yaml`) whose
content is a single leading blank line followed by the exact hash-style
header text, `check_file` passes: the whole-file strip removes the leading
blank line before the prefix comparison. -/
theorem C1_leading_blank_line_passes (p : MPath)
    (h : pathSuffix p ∈ pySuffixes) :
    check_contents p ('\n' :: PY_YAML_LICENSE_TEXT) = true := by
  have hpre :
      PY_YAML_LICENSE_TEXT.isPrefixOf (pyStrip ('\n' :: PY_YAML_LICENSE_TEXT)) = true := by
    decide
  have h1 : ¬(pathSuffix p ∈ jsSuffixes ∧
      JS_LICENSE_TEXT.isPrefixOf (pyStrip ('\n' :: PY_YAML_LICENSE_TEXT)) = false) :=
    fun hc => js_not_py _ hc.1 h
  have h2 : ¬(pathSuffix p ∈ pySuffixes ∧
      PY_YAML_LICENSE_TEXT.isPrefixOf (pyStrip ('\n' :: PY_YAML_LICENSE_TEXT)) = false) :=
    fun hc => by rw [hc.2] at hpre; exact Bool.noConfusion hpre
  unfold check_contents
  by_cases he : p ∈ EXCLUDES
  · rw [if_pos he]
  · rw [if_neg he, if_neg h1, if_neg h2]

/-- Witness for C1 at the concrete path `foo.py`. -/
theorem C1_leading_blank_line_passes_w :
    check_contents (parsePath "foo.py") ('\n' :: PY_YAML_LICENSE_TEXT) = true :=
  C1_leading_blank_line_passes (parsePath "foo.py") (by decide)

/-- C3: every readable file whose path is in `EXCLUDES` passes, regardless of
content and extension; the exclusion test overrides the extension dispatch. -/
theorem C3_excluded_passes (fs : MPath → Option (List Char)) (p : MPath)
    (raw : List Char) (h1 : p ∈ EXCLUDES) (h2 : fs p = some raw) :
    check_file fs p = some true := by
  unfold check_file
  rw [h2]
  simp [mem_excludes_pass p raw h1]

/-- Witness for C3 at `package.json` with arbitrary content. -/
theorem C3_excluded_passes_w :
    check_file (fun _ => some "x".data) (parsePath "package.json") = some true :=
  C3_excluded_passes (fun _ => some "x".data) (parsePath "package.json") "x".data
    (by decide) rfl

/-- C6: every readable file whose suffix is in neither recognized family
passes regardless of content. -/
theorem C6_unrecognized_extension_passes (fs : MPath → Option (List Char))
    (p : MPath) (raw : List Char)
    (h1 : pathSuffix p ∉ jsSuffixes) (h2 : pathSuffix p ∉ pySuffixes)
    (h3 : fs p = some raw) :
    check_file fs p = some true := by
  unfold check_file
  rw [h3]
  simp [no_family_pass p raw h1 h2]

/-- Witness for C6 at `README.md` with arbitrary content. -/
theorem C6_unrecognized_extension_passes_w :
    check_file (fun _ => some "x".data) (parsePath "README.md") = some true :=
  C6_unrecognized_extension_passes (fun _ => some "x".data) (parsePath "README.md")
    "x".data (by decide) (by decide) rfl

end License

namespace License

set_option maxRecDepth 100000 in
/-- C7: a C-style file (suffix `.js`, `.ts` or `.mjs`) whose content is the
C-style header text followed by arbitrary trailing content passes; in
particular the trimmed content starting exactly with the header suffices,
and the pass is preserved under appending any suffix `t`. -/
theorem C7_header_prefix_passes (p : MPath) (t : List Char)
    (h : pathSuffix p ∈ jsSuffixes) :
    check_contents p (JS_LICENSE_TEXT ++ t) = true := by
  have hstrip : pyStrip (JS_LICENSE_TEXT ++ t) = JS_LICENSE_TEXT ++ pyRstrip t :=
    strip_header_append JS_LICENSE_TEXT t (by decide) (by decide) (by decide)
  have hpre : JS_LICENSE_TEXT.isPrefixOf (pyStrip (JS_LICENSE_TEXT ++ t)) = true := by
    rw [hstrip, List.isPrefixOf_iff_prefix]
    exact List.prefix_append _ _
  have h1 : ¬(pathSuffix p ∈ jsSuffixes ∧
      JS_LICENSE_TEXT.isPrefixOf (pyStrip (JS_LICENSE_TEXT ++ t)) = false) :=
    fun hc => by rw [hc.2] at hpre; exact Bool.noConfusion hpre
  have h2 : ¬(pathSuffix p ∈ pySuffixes ∧
      PY_YAML_LICENSE_TEXT.isPrefixOf (pyStrip (JS_LICENSE_TEXT ++ t)) = false) :=
    fun hc => js_not_py _ h hc.1
  unfold check_contents
  by_cases he : p ∈ EXCLUDES
  · rw [if_pos he]
  · rw [if_neg he, if_neg h1, if_neg h2]

set_option maxRecDepth 100000 in
/-- Witness for C7 at `a.js` with trailing content `x`. -/
theorem C7_header_prefix_passes_w :
    check_contents (parsePath "a.js") (JS_LICENSE_TEXT ++ "x".data) = true :=
  C7_header_prefix_passes (parsePath "a.js") "x".data (by decide)

set_option maxRecDepth 100000 in
/-- C8: a C-style file not in `EXCLUDES` whose content equals the C-style
header text with exactly one character altered at any position inside the
header fails the check. -/
theorem C8_single_alteration_fails (p : MPath) (i : Nat) (c : Char)
    (hp : p ∉ EXCLUDES) (hs : pathSuffix p ∈ jsSuffixes)
    (hi : i < JS_LICENSE_TEXT.length)
    (hc : c ≠ JS_LICENSE_TEXT.get ⟨i, hi⟩) :
    check_contents p (JS_LICENSE_TEXT.set i c) = false := by
  apply js_fail_of_ne p _ hp hs
  · simp
  · intro he
    exact hc (eq_get_of_set_eq JS_LICENSE_TEXT i c hi he)

set_option maxRecDepth 100000 in
/-- Witness for C8: altering the first header character at `a.js`. -/
theorem C8_single_alteration_fails_w :
    check_contents (parsePath "a.js") (JS_LICENSE_TEXT.set 0 'X') = false :=
  C8_single_alteration_fails (parsePath "a.js") 0 'X' (by decide) (by decide)
    (by decide) (by decide)

/-- C9: exclusion membership is path-semantic, not raw-string: a spelling
that parses to the same path value as an excluded entry passes regardless of
content, the same result as the canonical spelling. -/
theorem C9_path_semantic_exclusion (s canon : String) (c : List Char)
    (h1 : parsePath canon ∈ EXCLUDES) (h2 : parsePath s = parsePath canon) :
    check_contents (parsePath s) c = true := by
  rw [h2]
  exact mem_excludes_pass _ c h1

/-- Witness for C9: the redundant spelling `./.pre-commit-config.yaml`. -/
theorem C9_path_semantic_exclusion_w :
    check_contents (parsePath "./.pre-commit-config.yaml") "junk".data = true :=
  C9_path_semantic_exclusion "./.pre-commit-config.yaml" ".pre-commit-config.yaml"
    "junk".data (by decide) (by decide)

/-- C10: for a file whose entire name is `.js`, `.ts` or `.mjs`, the driver
filter forwards it to the checker, but its `pathlib` suffix is empty so it
matches neither family and passes regardless of content; a run on it exits 0
with no output. -/
theorem C10_dotfile_filter_check_mismatch (s : String) (c : List Char)
    (h : pname (parsePath s) = ".js".data ∨ pname (parsePath s) = ".ts".data ∨
      pname (parsePath s) = ".mjs".data) :
    isFiltered s = true ∧ check_contents (parsePath s) c = true ∧
      main (fun _ => some c) [s] = some ([], 0) := by
  have hsuf : pathSuffix (parsePath s) = [] := by
    unfold pathSuffix
    rcases h with h | h | h <;> rw [h] <;> decide
  have hfil : isFiltered s = true := by
    unfold isFiltered
    rcases h with h | h | h <;> rw [h] <;> decide
  have hchk : check_contents (parsePath s) c = true := by
    apply no_family_pass
    · rw [hsuf]; decide
    · rw [hsuf]; decide
  refine ⟨hfil, hchk, ?_⟩
  have hcf : check_file (fun _ => some c) (parsePath s) = some true := by
    unfold check_file
    simp [hchk]
  unfold main collectFailing
  rw [if_neg (by simp [hfil]), hcf]
  rfl

/-- Witness for C10 at the bare dotfile name `.js` with arbitrary content. -/
theorem C10_dotfile_filter_check_mismatch_w :
    isFiltered ".js" = true ∧ check_contents (parsePath ".js") "bad".data = true ∧
      main (fun _ => some "bad".data) [".js"] = some ([], 0) :=
  C10_dotfile_filter_check_mismatch ".js" "bad".data (Or.inl (by decide))

end License

namespace License

/-- C2: when every filtered argument is readable, `main` prints the banner
line "Missing license headers" followed by exactly the filtered arguments
whose check fails, once per occurrence and in original argument order, and
exits 1, precisely when at least one filtered file fails; otherwise
(including the zero-argument case) it exits 0 and prints nothing. -/
theorem C2_main_report (fs : MPath → Option (List Char)) (argv : List String)
    (h : ∀ a ∈ argv, isFiltered a = true → (fs (parsePath a)).isSome = true) :
    main fs argv =
      some (if (argv.filter fun a =>
          isFiltered a && decide (check_file fs (parsePath a) = some false)) = []
        then ([], 0)
        else ("Missing license headers" ::
          (argv.filter fun a =>
            isFiltered a && decide (check_file fs (parsePath a) = some false)), 1)) := by
  unfold main
  rw [collectFailing_eq fs argv h]
  simp only [Option.map_some']
  by_cases hempty : (argv.filter fun a =>
      isFiltered a && decide (check_file fs (parsePath a) = some false)) = []
  · simp [hempty]
  · have hpos : 0 < (argv.filter fun a =>
        isFiltered a && decide (check_file fs (parsePath a) = some false)).length :=
      List.length_pos.mpr hempty
    simp [hempty, hpos]

set_option maxRecDepth 100000 in
/-- Witness for C2: one failing `.js` argument produces the banner, the path
and exit status 1. -/
theorem C2_main_report_w :
    main (fun _ => some "bad".data) ["a.js"] =
      some (["Missing license headers", "a.js"], 1) := by
  have h := C2_main_report (fun _ => some "bad".data) ["a.js"]
    (by intro a ha hf; rfl)
  rw [h]
  decide

/-- C4: an argument list in which no entry's final path segment ends with
`.js`, `.ts` or `.mjs` produces exit 0 and no output under every filesystem
whatsoever — in particular under the everywhere-unreadable one, so the
checker is never invoked on such arguments. -/
theorem C4_unfiltered_only (argv : List String) (fs : MPath → Option (List Char))
    (h : ∀ a ∈ argv, isFiltered a = false) :
    main fs argv = some ([], 0) := by
  unfold main
  rw [collectFailing_all_skipped fs argv h]
  rfl

/-- Witness for C4: only non-JS-family files, all unreadable, exit 0. -/
theorem C4_unfiltered_only_w :
    main (fun _ => none) ["a.py", "README.md"] = some ([], 0) :=
  C4_unfiltered_only ["a.py", "README.md"] (fun _ => none) (by decide)

/-- C5: if some filtered argument's file cannot be opened or read, the whole
run aborts with the uncaught I/O error: no failure list is produced and the
termination is distinct from the controlled exit-1 report. -/
theorem C5_unreadable_aborts (fs : MPath → Option (List Char)) (argv : List String)
    (arg : String) (h1 : arg ∈ argv) (h2 : isFiltered arg = true)
    (h3 : fs (parsePath arg) = none) :
    main fs argv = none := by
  unfold main
  rw [collectFailing_abort fs arg h2 h3 argv h1]
  rfl

/-- Witness for C5: a single unreadable `.js` argument aborts the run. -/
theorem C5_unreadable_aborts_w : main (fun _ => none) ["a.js"] = none :=
  C5_unreadable_aborts (fun _ => none) ["a.js"] "a.js" (by decide) (by decide) rfl

end License
